import Mathlib

/-!
Verification of the pdf2md conversion pipeline (src/pdf2md.py).

Python strings are embedded as `List Char`; Python `int` page/image indices
as `Nat`; pdfplumber coordinates as `ℚ`; fallible HTTP calls as explicit
outcome values supplied by the environment.  Each definition below is a
direct translation of the function of the same (or clearly corresponding)
name in the source.
-/

namespace PdfToMd

/-- Decimal digit character, as produced by Python string formatting of a
nonnegative integer digit. -/
def digitCh : Nat → Char
  | 0 => '0'
  | 1 => '1'
  | 2 => '2'
  | 3 => '3'
  | 4 => '4'
  | 5 => '5'
  | 6 => '6'
  | 7 => '7'
  | 8 => '8'
  | 9 => '9'
  | _ + 10 => '0'

/-- Fuel-driven decimal rendering (structural recursion so that the kernel
can evaluate it).  `natDigits` below always supplies enough fuel. -/
def natDigitsAux (fuel : Nat) (n : Nat) : List Char :=
  match fuel with
  | 0 => []
  | fuel + 1 =>
    if n < 10 then [digitCh n] else natDigitsAux fuel (n / 10) ++ [digitCh (n % 10)]

/-- Decimal rendering of a natural number, the embedding of Python
f-string formatting of a nonnegative `int`. -/
def natDigits (n : Nat) : List Char := natDigitsAux (n + 1) n

/-- The placeholder token `<!-- IMAGE_PLACEHOLDER_{i} -->` from
`build_structured_content` (src/pdf2md.py line 113) and the substitution
loop (line 179). -/
def imagePlaceholder (i : Nat) : List Char :=
  "<!-- IMAGE_PLACEHOLDER_".toList ++ natDigits i ++ " -->".toList

/-- Fuel-driven model of Python `str.replace` (replace all leftmost,
non-overlapping occurrences, scanning left to right). -/
def replaceAllAux (pat rep : List Char) (fuel : Nat) (s : List Char) : List Char :=
  match fuel, s with
  | _, [] => []
  | 0, s => s
  | fuel + 1, c :: cs =>
    if pat.isPrefixOf (c :: cs) then rep ++ replaceAllAux pat rep fuel ((c :: cs).drop pat.length)
    else c :: replaceAllAux pat rep fuel cs

/-- Python `s.replace(pat, rep)` for a non-empty pattern (the source only
replaces the non-empty placeholder tokens; for an empty pattern we return
`s` unchanged, a case the source never exercises). -/
def replaceAll (s pat rep : List Char) : List Char :=
  if pat.isEmpty then s else replaceAllAux pat rep s.length s

/-! ### Data model (spec section 3, extracted dictionaries of the source) -/

/-- One line from `page.extract_text_lines()` (src/pdf2md.py line 35). -/
structure TextLine where
  content : List Char
  x0 : ℚ
  top : ℚ
  x1 : ℚ
  bottom : ℚ
deriving DecidableEq

/-- One entry of `page.images`; `crop` is the result of
`page.crop(bbox).to_image()` — `none` models the exception path of
src/pdf2md.py lines 65-66 (that image is skipped). -/
structure RawImage where
  x0 : ℚ
  y0 : ℚ
  x1 : ℚ
  y1 : ℚ
  crop : Option Nat
deriving DecidableEq

/-- An element dictionary built in `extract_pdf_content_with_layout`
(src/pdf2md.py lines 37-42 and 56-63). -/
inductive Element where
  | text (content : List Char) (bbox : ℚ × ℚ × ℚ × ℚ) (y_pos : ℚ)
  | image (img : Nat) (bbox : ℚ × ℚ × ℚ × ℚ) (y_pos : ℚ) (page : Nat) (index : Nat)
deriving DecidableEq

/-- The `y_pos` key of an element. -/
def Element.y_pos : Element → ℚ
  | .text _ _ y => y
  | .image _ _ y _ _ => y

/-- `element['type'] == 'image'` (src/pdf2md.py line 111/192). -/
def Element.isImage : Element → Bool
  | .image _ _ _ _ _ => true
  | .text _ _ _ => false

/-- Per-page input to the extractor: what pdfplumber reports for one page. -/
structure PageInput where
  lines : List TextLine
  images : List RawImage

/-- One entry of `pages_data` (src/pdf2md.py lines 73-76). -/
structure PageData where
  page_num : Nat
  elements : List Element
deriving DecidableEq

/-! ### Page Extractor (src/pdf2md.py lines 26-78) -/

/-- The sort key comparison of `page_elements.sort(key=lambda x: x['y_pos'])`. -/
def elemLe (a b : Element) : Prop := a.y_pos ≤ b.y_pos

instance : DecidableRel elemLe := fun a b => inferInstanceAs (Decidable (a.y_pos ≤ b.y_pos))

instance : IsTotal Element elemLe := ⟨fun a b => le_total a.y_pos b.y_pos⟩

instance : IsTrans Element elemLe := ⟨fun _ _ _ h h' => le_trans h h'⟩

/-- Text element built at src/pdf2md.py lines 37-42. -/
def textElement (l : TextLine) : Element :=
  .text l.content (l.x0, l.top, l.x1, l.bottom) l.top

/-- The image loop `for img_idx, img in enumerate(page.images)`
(src/pdf2md.py lines 48-66): every image is attempted; a failed crop is
skipped, a successful one is appended with `y_pos = bbox[1]`. -/
def imageElemsFrom (pnum : Nat) : Nat → List RawImage → List Element
  | _, [] => []
  | idx, img :: rest =>
    match img.crop with
    | some pix =>
      .image pix (img.x0, img.y0, img.x1, img.y1) img.y0 pnum idx ::
        imageElemsFrom pnum (idx + 1) rest
    | none => imageElemsFrom pnum (idx + 1) rest

/-- Merged per-page element list: text lines, then images, then the stable
sort by `y_pos` (src/pdf2md.py line 71; Python `list.sort` is stable, which
`List.insertionSort` models exactly). -/
def pageElements (pnum : Nat) (lines : List TextLine) (imgs : List RawImage) : List Element :=
  List.insertionSort elemLe (lines.map textElement ++ imageElemsFrom pnum 0 imgs)

/-- The page loop `for page_num, page in enumerate(pdf.pages)`. -/
def extractFrom : Nat → List PageInput → List PageData
  | _, [] => []
  | n, p :: rest => ⟨n + 1, pageElements (n + 1) p.lines p.images⟩ :: extractFrom (n + 1) rest

/-- `extract_pdf_content_with_layout` (src/pdf2md.py lines 26-78). -/
def extract_pdf_content_with_layout (doc : List PageInput) : List PageData :=
  extractFrom 0 doc

/-! ### Image Uploader (src/pdf2md.py lines 80-97) -/

/-- Outcome of the single `requests.post` of an upload: either a response
with a status code and (when the body parses as JSON with a `url` field)
the url, or a network-level error. -/
inductive HttpOutcome where
  | response (status : Nat) (jsonUrl : Option (List Char))
  | netError

/-- `upload_to_gyazo` (src/pdf2md.py lines 80-97): `raise_for_status`
raises exactly for status codes 400-599, `response.json()['url']` raises
when the body is malformed or lacks the field, and the surrounding
`except` turns any of these into `None`.  No retry is performed. -/
def upload_to_gyazo (o : HttpOutcome) : Option (List Char) :=
  match o with
  | .netError => none
  | .response s j => if 400 ≤ s && s < 600 then none else j

/-! ### Content Serializer (src/pdf2md.py lines 99-118) -/

/-- Python truthiness of an optional string (`if url:`): `None` and the
empty string are falsy. -/
def truthy : Option (List Char) → Bool
  | none => false
  | some s => !s.isEmpty

/-- `f"\n\n--- Page {page_num} ---\n"` (src/pdf2md.py line 106). -/
def pageMarker (n : Nat) : List Char :=
  "\n\n--- Page ".toList ++ natDigits n ++ " ---\n".toList

/-- The placeholder block emitted for a successfully uploaded image
(src/pdf2md.py line 113). -/
def placeholderPiece (counter pnum : Nat) : List Char :=
  "\n[画像 ".toList ++ natDigits (counter + 1) ++ ": Page ".toList ++ natDigits pnum ++
    "]\n![Image](".toList ++ imagePlaceholder counter ++ ")\n\n".toList

/-- The failure marker emitted when the upload-result check fails
(src/pdf2md.py line 116). -/
def failurePiece (pnum : Nat) : List Char :=
  "\n[画像: Page ".toList ++ natDigits pnum ++ " - アップロード失敗]\n\n".toList

/-- The inner element loop of `build_structured_content`
(src/pdf2md.py lines 108-116), threading `image_counter`.  Note the
faithful detail: the counter is incremented only on the placeholder
(success) branch. -/
def buildElems (pnum : Nat) (urls : List (Option (List Char))) :
    List Element → Nat → List Char × Nat
  | [], c => ([], c)
  | e :: rest, c =>
    match e with
    | .text content _ _ =>
      let r := buildElems pnum urls rest c
      (content ++ "\n".toList ++ r.1, r.2)
    | .image _ _ _ _ _ =>
      if c < urls.length && truthy (urls.getD c none) then
        let r := buildElems pnum urls rest (c + 1)
        (placeholderPiece c pnum ++ r.1, r.2)
      else
        let r := buildElems pnum urls rest c
        (failurePiece pnum ++ r.1, r.2)

/-- The page loop of `build_structured_content` (src/pdf2md.py lines 104-116). -/
def buildPages (urls : List (Option (List Char))) : List PageData → Nat → List Char × Nat
  | [], c => ([], c)
  | p :: rest, c =>
    let r := buildElems p.page_num urls p.elements c
    let r2 := buildPages urls rest r.2
    (pageMarker p.page_num ++ r.1 ++ r2.1, r2.2)

/-- `build_structured_content` (src/pdf2md.py lines 99-118); the second
component of `buildPages` is the final `image_counter`. -/
def build_structured_content (pages : List PageData) (urls : List (Option (List Char))) :
    List Char :=
  (buildPages urls pages 0).1

/-- Ghost-instrumented element loop: additionally records the counter
value used by each emitted placeholder token. -/
def buildElemsT (pnum : Nat) (urls : List (Option (List Char))) :
    List Element → Nat → List Char × Nat × List Nat
  | [], c => ([], c, [])
  | e :: rest, c =>
    match e with
    | .text content _ _ =>
      let r := buildElemsT pnum urls rest c
      (content ++ "\n".toList ++ r.1, r.2.1, r.2.2)
    | .image _ _ _ _ _ =>
      if c < urls.length && truthy (urls.getD c none) then
        let r := buildElemsT pnum urls rest (c + 1)
        (placeholderPiece c pnum ++ r.1, r.2.1, c :: r.2.2)
      else
        let r := buildElemsT pnum urls rest c
        (failurePiece pnum ++ r.1, r.2.1, r.2.2)

/-- Ghost-instrumented page loop of `build_structured_content`. -/
def buildPagesT (urls : List (Option (List Char))) :
    List PageData → Nat → List Char × Nat × List Nat
  | [], c => ([], c, [])
  | p :: rest, c =>
    let r := buildElemsT p.page_num urls p.elements c
    let r2 := buildPagesT urls rest r.2.1
    (pageMarker p.page_num ++ r.1 ++ r2.1, r2.2.1, r.2.2 ++ r2.2.2)

/-! ### Summarizer (src/pdf2md.py lines 120-181) -/

/-- `len([url for url in image_urls if url])` (src/pdf2md.py line 126). -/
def valid_image_count (urls : List (Option (List Char))) : Nat :=
  (urls.filter (fun u => truthy u)).length

/-- The zero-image instruction (src/pdf2md.py lines 129-133). -/
def imageInstructionZero : List Char :=
  "\n重要: このPDFには画像がないか、画像の抽出に失敗しました。\n画像に関する言及や参照は一切しないでください。\n実在しない図表やイラストについて言及することは禁止です。\nテキスト内容のみに基づいて要約してください。".toList

/-- The instruction used when at least one image uploaded
(src/pdf2md.py lines 135-138). -/
def imageInstructionSome (n : Nat) : List Char :=
  "\nこのPDFには".toList ++ natDigits n ++
    "個の画像が含まれています。\n画像とテキストの関連性を保ちながら、適切な箇所に画像を配置してください。\n実際に抽出された画像のみを参照し、存在しない画像については言及しないでください。".toList

/-- The branch on `valid_image_count` (src/pdf2md.py lines 128-138). -/
def imageInstruction (urls : List (Option (List Char))) : List Char :=
  if valid_image_count urls = 0 then imageInstructionZero
  else imageInstructionSome (valid_image_count urls)

/-- Fixed prompt text before the image instruction (src/pdf2md.py line 140). -/
def promptHeader : List Char :=
  "以下のPDF内容を日本語でわかりやすく要約し、Markdown形式で構造化してください。\n\n".toList

/-- Fixed prompt text between the image instruction and the structured
content (src/pdf2md.py lines 143-163). -/
def promptMiddle : List Char :=
  "\n\n要約の際は以下を考慮してください：\n- 文書の全体的な構造と流れを把握する\n- ページごとの内容を統合して論理的な構造にする\n- 存在しない情報や画像について推測や創造をしない\n\n出力形式：\n# 文書の概要\n\n# 主要なポイント\n- 重要なポイント1\n- 重要なポイント2\n\n# 詳細内容\n## セクション1\n内容の説明\n\n## セクション2\n内容の説明\n\nPDF内容:\n".toList

/-- The full prompt f-string of `summarize_with_openai`
(src/pdf2md.py lines 140-165). -/
def buildPrompt (pages : List PageData) (urls : List (Option (List Char))) : List Char :=
  promptHeader ++ imageInstruction urls ++ promptMiddle ++
    build_structured_content pages urls ++ "\n".toList

/-- The substitution loop `for i, url in enumerate(image_urls)`
(src/pdf2md.py lines 177-179), started at index `i`. -/
def substFrom (i : Nat) : List (Option (List Char)) → List Char → List Char
  | [], s => s
  | u :: rest, s =>
    substFrom (i + 1) rest (if truthy u then replaceAll s (imagePlaceholder i) (u.getD []) else s)

/-- Placeholder substitution over the model's returned text
(src/pdf2md.py lines 175-179). -/
def substitutePlaceholders (urls : List (Option (List Char))) (s : List Char) : List Char :=
  substFrom 0 urls s

/-- `summarize_with_openai` (src/pdf2md.py lines 120-181): builds the
prompt, performs the completion call (whose outcome the environment
supplies as a function of the prompt; an API exception propagates), and
substitutes placeholders in the returned text. -/
def summarize_with_openai (pages : List PageData) (urls : List (Option (List Char)))
    (oracle : List Char → Except (List Char) (List Char)) : Except (List Char) (List Char) :=
  match oracle (buildPrompt pages urls) with
  | .error e => .error e
  | .ok t => .ok (substitutePlaceholders urls t)

/-! ### Orchestrator (src/pdf2md.py lines 14-24 and 183-238) -/

/-- The two environment secrets read in `PDF2MD.__init__`. -/
structure Env where
  gyazo_token : Option (List Char)
  openai_api_key : Option (List Char)

/-- Message of the ValueError raised for a missing GYAZO_TOKEN. -/
def gyazoMissingMsg : List Char := "GYAZO_TOKEN environment variable is required".toList

/-- Message of the ValueError raised for a missing OPENAI_API_KEY. -/
def openaiMissingMsg : List Char := "OPENAI_API_KEY environment variable is required".toList

/-- `PDF2MD.__init__` (src/pdf2md.py lines 15-24): checks the two secrets
in order, raising before anything else happens. -/
def initPDF2MD (env : Env) : Except (List Char) Unit :=
  if !truthy env.gyazo_token then .error gyazoMissingMsg
  else if !truthy env.openai_api_key then .error openaiMissingMsg
  else .ok ()

/-- The image-collection loop of `convert` (src/pdf2md.py lines 189-193). -/
def collectImages (pages : List PageData) : List Element :=
  pages.flatMap (fun p => p.elements.filter (fun e => e.isImage))

/-- The upload loop of `convert` (src/pdf2md.py lines 199-208): one
synchronous upload per discovered image, in discovery order; the i-th
call's outcome is `uploads i`; a `None` is recorded on failure. -/
def uploadAll (uploads : Nat → HttpOutcome) (n : Nat) : List (Option (List Char)) :=
  (List.range n).map (fun i => upload_to_gyazo (uploads i))

/-- The `pages_data` a run computes (src/pdf2md.py line 186). -/
def runPages (pdf : List PageInput) : List PageData := extract_pdf_content_with_layout pdf

/-- The `image_urls` list a run computes (src/pdf2md.py lines 189-208):
one upload per image element, in discovery order. -/
def runUrls (pdf : List PageInput) (uploads : Nat → HttpOutcome) : List (Option (List Char)) :=
  uploadAll uploads (collectImages (runPages pdf)).length

/-- `convert` (src/pdf2md.py lines 183-217), up to the file write which
`runMain` records. -/
def convert (pdf : List PageInput) (uploads : Nat → HttpOutcome)
    (oracle : List Char → Except (List Char) (List Char)) : Except (List Char) (List Char) :=
  summarize_with_openai (runPages pdf) (runUrls pdf uploads) oracle

/-- One invocation: the argv tail, whether `os.path.exists(input)` holds,
the environment, the parsed PDF, and the two network oracles. -/
structure RunInput where
  argv : List (List Char)
  inputExists : Bool
  env : Env
  pdf : List PageInput
  uploads : Nat → HttpOutcome
  oracle : List Char → Except (List Char) (List Char)

/-- Observable outcome of `main`: process exit code, whether the PDF was
opened, the (path, content) written to the output file if any, and the
diagnostic message if any. -/
structure RunResult where
  exitCode : Nat
  pdfOpened : Bool
  written : Option (List Char × List Char)
  message : Option (List Char)

/-- Error message printed when the input file does not exist
(src/pdf2md.py line 227), without the appended path. -/
def inputMissingPrefix : List Char := "エラー: 入力ファイルが見つかりません: ".toList

/-- The prefix of `print(f"エラー: {e}")` (src/pdf2md.py line 234). -/
def errPrefix : List Char := "エラー: ".toList

/-- The argparse configuration of `main` (src/pdf2md.py lines 220-224):
two required positional arguments; any other positional arity makes
argparse exit with status 2 (modelled for flag-free invocations). -/
def parseArgs : List (List Char) → Except Nat (List Char × List Char)
  | [i, o] => .ok (i, o)
  | _ => .error 2

/-- `main` (src/pdf2md.py lines 219-235): parse argv, check the input
exists, construct `PDF2MD` (which validates the secrets), run `convert`,
and turn any exception into exit status 1. -/
def runMain (inp : RunInput) : RunResult :=
  match parseArgs inp.argv with
  | .error c => ⟨c, false, none, none⟩
  | .ok (i, o) =>
    if !inp.inputExists then ⟨1, false, none, some (inputMissingPrefix ++ i)⟩
    else
      match initPDF2MD inp.env with
      | .error e => ⟨1, false, none, some (errPrefix ++ e)⟩
      | .ok _ =>
        match convert inp.pdf inp.uploads inp.oracle with
        | .error e => ⟨1, true, none, some (errPrefix ++ e)⟩
        | .ok content => ⟨0, true, some (o, content), none⟩

/-! ### Blob shapes for the substitution round-trip

A serialized blob "containing placeholders for exactly those indices" is an
interleaving of literal segments and placeholder tokens; `renderPieces`
produces the concrete string the substitution loop operates on. -/

/-- A fragment of a serialized blob: a literal segment or the placeholder
token for image index `k`. -/
inductive Piece where
  | seg (s : List Char)
  | img (k : Nat)
deriving DecidableEq

/-- Concatenate the fragments into the actual string. -/
def renderPieces : List Piece → List Char
  | [] => []
  | .seg s :: rest => s ++ renderPieces rest
  | .img k :: rest => imagePlaceholder k ++ renderPieces rest

/-- Effect of one pass of the substitution loop (pattern index `k`,
replacement `u`) on a fragment. -/
def replaceTokPiece (k : Nat) (u : List Char) : Piece → Piece
  | .seg s => .seg s
  | .img j => if j = k then .seg u else .img j

/-- Effect of the substitution loop started at index `i` on a fragment:
the token for index `k` is replaced by its url exactly when the url list
has a truthy entry for it. -/
def substPieceFrom (i : Nat) (urls : List (Option (List Char))) : Piece → Piece
  | .seg s => .seg s
  | .img k =>
    if i ≤ k && truthy (urls.getD (k - i) none) then .seg ((urls.getD (k - i) none).getD [])
    else .img k

/-- The fixed prefix shared by every placeholder token. -/
def placeholderMarker : List Char := "<!-- IMAGE_PLACEHOLDER_".toList

/-- A blob fragment is clean when a literal segment contains no `<` (so no
placeholder token can start inside it or straddle its boundary). -/
def pieceClean (p : Piece) : Prop :=
  match p with
  | .seg s => '<' ∉ s
  | .img _ => True

instance : DecidablePred pieceClean := fun p =>
  match p with
  | .seg s => inferInstanceAs (Decidable ('<' ∉ s))
  | .img _ => inferInstanceAs (Decidable True)

/-- An element is clean when, if it is a text line, its content does not
contain the placeholder-token marker (PDF text does not impersonate the
serializer's synthetic tokens). -/
def elementClean (e : Element) : Prop :=
  match e with
  | .text content _ _ => ¬ placeholderMarker <:+: content
  | .image _ _ _ _ _ => True

instance : DecidablePred elementClean := fun e =>
  match e with
  | .text content _ _ => inferInstanceAs (Decidable (¬ placeholderMarker <:+: content))
  | .image _ _ _ _ _ => inferInstanceAs (Decidable True)

/-! ### Concrete sample data (used by witnesses and counterexamples) -/

/-- A minimal image element on page 1. -/
def imgElem (idx : Nat) : Element := .image 0 (0, 0, 0, 0) 0 1 idx

/-- A representative hosted-image URL. -/
def gyazoUrl : List Char := "https://i.gyazo.com/abc.png".toList

/-- One page holding two image elements. -/
def samplePagesTwoImages : List PageData := [⟨1, [imgElem 0, imgElem 1]⟩]

/-- Upload results: first failed, second succeeded. -/
def sampleUrlsFailThenOk : List (Option (List Char)) := [none, some gyazoUrl]

/-- A raw image whose crop succeeds. -/
def sampleRawImage : RawImage := ⟨0, 0, 0, 0, some 0⟩

/-- A one-page PDF with one text line and one image. -/
def samplePdfOneImage : List PageInput :=
  [⟨[⟨"Hello".toList, 0, 0, 0, 0⟩], [sampleRawImage]⟩]

/-- An environment with both secrets present. -/
def sampleEnvOk : Env := ⟨some ("g".toList), some ("k".toList)⟩

/-- An environment missing the image-host token. -/
def sampleEnvNoGyazo : Env := ⟨none, some ("k".toList)⟩

/-- The input path argument. -/
def inputArg : List Char := "doc.pdf".toList

/-- The output path argument. -/
def outputArg : List Char := "doc.md".toList

/-- A run whose only image upload fails (network error) and whose
completion call succeeds. -/
def sampleRunFailUpload : RunInput :=
  ⟨[inputArg, outputArg], true, sampleEnvOk, samplePdfOneImage,
    fun _ => .netError, fun _ => .ok ("OK".toList)⟩

/-- A run whose completion call fails. -/
def sampleRunApiError : RunInput :=
  ⟨[inputArg, outputArg], true, sampleEnvOk, [], fun _ => .netError,
    fun _ => .error ("boom".toList)⟩

/-- A run invoked with only the input argument. -/
def sampleRunOneArg : RunInput :=
  ⟨[inputArg], true, sampleEnvOk, [], fun _ => .netError, fun _ => .ok []⟩

/-- A run with the GYAZO_TOKEN secret absent. -/
def sampleRunNoGyazo : RunInput :=
  ⟨[inputArg, outputArg], true, sampleEnvNoGyazo, [], fun _ => .netError, fun _ => .ok []⟩

/-- Blob fragments for the round-trip witness. -/
def samplePieces : List Piece :=
  [.seg ("Hello ".toList), .img 0, .seg (" World ".toList), .img 1, .img 5]

/-- Upload results for the round-trip witness: index 0 mapped, index 1 absent. -/
def sampleUrlsOkThenFail : List (Option (List Char)) := [some gyazoUrl, none]

/-- One page with a single text element. -/
def samplePagesText : List PageData := [⟨1, [.text ("Hello".toList) (0, 0, 0, 0) 0]⟩]

/-! ## Lemmas about decimal rendering -/

theorem natDigitsAux_succ (f n : Nat) :
    natDigitsAux (f + 1) n =
      if n < 10 then [digitCh n] else natDigitsAux f (n / 10) ++ [digitCh (n % 10)] := rfl

theorem natDigitsAux_congr : ∀ f₁ f₂ n : Nat, n < f₁ → n < f₂ →
    natDigitsAux f₁ n = natDigitsAux f₂ n := by
  intro f₁
  induction f₁ with
  | zero => intro f₂ n h _; exact absurd h (Nat.not_lt_zero n)
  | succ g ih =>
    intro f₂ n h1 h2
    cases f₂ with
    | zero => exact absurd h2 (Nat.not_lt_zero n)
    | succ g2 =>
      rw [natDigitsAux_succ, natDigitsAux_succ]
      by_cases hn : n < 10
      · simp [hn]
      · rw [if_neg hn, if_neg hn]
        have hd : n / 10 < n := Nat.div_lt_self (by omega) (by omega)
        rw [ih g2 (n / 10) (by omega) (by omega)]

theorem natDigits_eq (n : Nat) :
    natDigits n = if n < 10 then [digitCh n] else natDigits (n / 10) ++ [digitCh (n % 10)] := by
  show natDigitsAux (n + 1) n = _
  rw [natDigitsAux_succ]
  by_cases hn : n < 10
  · simp [hn]
  · rw [if_neg hn, if_neg hn]
    have hd : n / 10 < n := Nat.div_lt_self (by omega) (by omega)
    show natDigitsAux n (n / 10) ++ _ = natDigitsAux (n / 10 + 1) (n / 10) ++ _
    rw [natDigitsAux_congr n (n / 10 + 1) (n / 10) (by omega) (by omega)]

theorem natDigits_ne_nil (n : Nat) : natDigits n ≠ [] := by
  rw [natDigits_eq]
  by_cases hn : n < 10 <;> simp [hn]

theorem digitCh_isDigit (d : Nat) : (digitCh d).isDigit = true := by
  unfold digitCh
  split <;> decide

theorem natDigits_isDigit : ∀ n : Nat, ∀ c ∈ natDigits n, c.isDigit = true := by
  intro n
  induction n using Nat.strong_induction_on with
  | _ n ih =>
    intro c hc
    rw [natDigits_eq] at hc
    by_cases hn : n < 10
    · rw [if_pos hn, List.mem_singleton] at hc
      rw [hc]; exact digitCh_isDigit n
    · rw [if_neg hn] at hc
      rcases List.mem_append.mp hc with h1 | h2
      · exact ih (n / 10) (Nat.div_lt_self (by omega) (by omega)) c h1
      · rw [List.mem_singleton] at h2
        rw [h2]; exact digitCh_isDigit (n % 10)

theorem digitCh_injTable : ∀ a b : Fin 10, digitCh a.val = digitCh b.val → a = b := by decide

theorem digitCh_inj {a b : Nat} (ha : a < 10) (hb : b < 10) (h : digitCh a = digitCh b) :
    a = b := by
  have := digitCh_injTable ⟨a, ha⟩ ⟨b, hb⟩ h
  simpa using congrArg Fin.val this

theorem natDigits_inj : ∀ a b : Nat, natDigits a = natDigits b → a = b := by
  intro a
  induction a using Nat.strong_induction_on with
  | _ a ih =>
    intro b h
    rw [natDigits_eq, natDigits_eq b] at h
    by_cases ha : a < 10 <;> by_cases hb : b < 10
    · rw [if_pos ha, if_pos hb] at h
      injection h with h1 _
      exact digitCh_inj ha hb h1
    · rw [if_pos ha, if_neg hb] at h
      obtain ⟨c, t, hct⟩ := List.exists_cons_of_ne_nil (natDigits_ne_nil (b / 10))
      rw [hct, List.cons_append] at h
      injection h with _ h2
      exact absurd h2.symm (by simp)
    · rw [if_neg ha, if_pos hb] at h
      obtain ⟨c, t, hct⟩ := List.exists_cons_of_ne_nil (natDigits_ne_nil (a / 10))
      rw [hct, List.cons_append] at h
      injection h with _ h2
      exact absurd h2 (by simp)
    · rw [if_neg ha, if_neg hb] at h
      obtain ⟨hdiv, hmod⟩ := List.append_inj' h (by simp)
      have hd : a / 10 = b / 10 :=
        ih (a / 10) (Nat.div_lt_self (by omega) (by omega)) (b / 10) hdiv
      injection hmod with h3 _
      have hm : a % 10 = b % 10 :=
        digitCh_inj (Nat.mod_lt a (by omega)) (Nat.mod_lt b (by omega)) h3
      omega

/-! ## Lemmas about the `str.replace` model -/

theorem replaceAllAux_congr (pat rep : List Char) (hpat : pat ≠ []) :
    ∀ f₁ f₂ s, s.length ≤ f₁ → s.length ≤ f₂ →
      replaceAllAux pat rep f₁ s = replaceAllAux pat rep f₂ s := by
  intro f₁
  induction f₁ with
  | zero =>
    intro f₂ s h1 _
    have : s = [] := List.eq_nil_of_length_eq_zero (Nat.le_zero.mp h1)
    subst this
    cases f₂ <;> rfl
  | succ g ih =>
    intro f₂ s h1 h2
    cases s with
    | nil => cases f₂ <;> rfl
    | cons c cs =>
      cases f₂ with
      | zero => simp at h2
      | succ g2 =>
        have hplen : 0 < pat.length := List.length_pos.mpr hpat
        simp only [replaceAllAux]
        by_cases hp : pat.isPrefixOf (c :: cs) = true
        · rw [hp]
          simp only [if_true]
          have hlen : ((c :: cs).drop pat.length).length ≤ g := by
            rw [List.length_drop]
            simp only [List.length_cons]
            simp only [List.length_cons] at h1
            omega
          have hlen2 : ((c :: cs).drop pat.length).length ≤ g2 := by
            rw [List.length_drop]
            simp only [List.length_cons]
            simp only [List.length_cons] at h2
            omega
          rw [ih g2 _ hlen hlen2]
        · rw [Bool.eq_false_iff.mpr hp]
          simp only [Bool.false_eq_true, if_false]
          have hlen : cs.length ≤ g := by simp only [List.length_cons] at h1; omega
          have hlen2 : cs.length ≤ g2 := by simp only [List.length_cons] at h2; omega
          rw [ih g2 cs hlen hlen2]

theorem replaceAll_nil (pat rep : List Char) : replaceAll [] pat rep = [] := by
  unfold replaceAll
  by_cases hp : pat.isEmpty = true <;> simp [hp, replaceAllAux]

theorem replaceAll_empty_pat (s rep : List Char) : replaceAll s [] rep = s := by
  unfold replaceAll
  simp

theorem replaceAll_cons (pat rep : List Char) (hpat : pat ≠ []) (c : Char) (cs : List Char) :
    replaceAll (c :: cs) pat rep =
      if pat.isPrefixOf (c :: cs) then rep ++ replaceAll ((c :: cs).drop pat.length) pat rep
      else c :: replaceAll cs pat rep := by
  have hne : pat.isEmpty = false := by
    cases pat with
    | nil => exact absurd rfl hpat
    | cons a l => rfl
  have hplen : 0 < pat.length := List.length_pos.mpr hpat
  unfold replaceAll
  simp only [hne, Bool.false_eq_true, if_false]
  simp only [List.length_cons, replaceAllAux]
  by_cases hp : pat.isPrefixOf (c :: cs) = true
  · rw [hp]
    simp only [if_true]
    congr 1
    apply replaceAllAux_congr pat rep hpat
    · rw [List.length_drop]; simp only [List.length_cons]; omega
    · exact le_refl _
  · rw [Bool.eq_false_iff.mpr hp]
    simp only [Bool.false_eq_true, if_false]

theorem replaceAll_of_not_infix {pat : List Char} (rep : List Char) :
    ∀ s : List Char, ¬ pat <:+: s → replaceAll s pat rep = s := by
  intro s
  induction s with
  | nil => intro _; exact replaceAll_nil pat rep
  | cons c cs ih =>
    intro h
    have hpat : pat ≠ [] := by rintro rfl; exact h List.nil_infix
    rw [replaceAll_cons pat rep hpat]
    have hp : ¬ pat.isPrefixOf (c :: cs) = true := by
      rw [List.isPrefixOf_iff_prefix]
      exact fun hpre => h hpre.isInfix
    rw [Bool.eq_false_iff.mpr hp]
    simp only [Bool.false_eq_true, if_false]
    rw [ih (fun hi => h (List.infix_cons hi))]

theorem replaceAll_append_of_clean (pat rep : List Char) :
    ∀ a b : List Char, (∀ a₂, a₂ ≠ [] → a₂ <:+ a → ¬ pat <+: (a₂ ++ b)) →
      replaceAll (a ++ b) pat rep = a ++ replaceAll b pat rep := by
  intro a
  induction a with
  | nil => intro b _; simp
  | cons c a' ih =>
    intro b h
    have hpat : pat ≠ [] := by
      rintro rfl
      exact h (c :: a') (by simp) (List.suffix_refl _) List.nil_prefix
    rw [List.cons_append, replaceAll_cons pat rep hpat]
    have hp : ¬ pat.isPrefixOf (c :: (a' ++ b)) = true := by
      rw [List.isPrefixOf_iff_prefix]
      exact fun hpre => h (c :: a') (by simp) (List.suffix_refl _) hpre
    rw [Bool.eq_false_iff.mpr hp]
    simp only [Bool.false_eq_true, if_false, List.cons_append]
    rw [ih b (fun a₂ hne hsuf => h a₂ hne (hsuf.trans (List.suffix_cons c a')))]

theorem replaceAll_pattern_head (pat rep : List Char) (hpat : pat ≠ []) (b : List Char) :
    replaceAll (pat ++ b) pat rep = rep ++ replaceAll b pat rep := by
  obtain ⟨p, ps, rfl⟩ := List.exists_cons_of_ne_nil hpat
  rw [List.cons_append, replaceAll_cons _ rep (by simp)]
  have hp : (p :: ps).isPrefixOf (p :: (ps ++ b)) = true := by
    rw [List.isPrefixOf_iff_prefix]
    exact List.prefix_append (p :: ps) b
  rw [hp]
  simp only [if_true]
  congr 1
  have hdrop : (p :: (ps ++ b)).drop (p :: ps).length = b := by
    exact List.drop_left (p :: ps) b
  rw [hdrop]

/-! ## Placeholder tokens are mutually non-overlapping -/

theorem digits_space_not_prefix :
    ∀ dk dj : List Char, (∀ c ∈ dk, c.isDigit = true) → (∀ c ∈ dj, c.isDigit = true) →
      dk ≠ dj → ∀ u v : List Char, ¬ (dk ++ ' ' :: u <+: dj ++ ' ' :: v) := by
  intro dk
  induction dk with
  | nil =>
    intro dj _ hdj hne u v hpre
    cases dj with
    | nil => exact hne rfl
    | cons d dj' =>
      rw [List.nil_append, List.cons_append, List.cons_prefix_cons] at hpre
      obtain ⟨h1, _⟩ := hpre
      have hd := hdj d (by simp)
      rw [← h1] at hd
      exact absurd hd (by decide)
  | cons c dk' ih =>
    intro dj hdk hdj hne u v hpre
    cases dj with
    | nil =>
      rw [List.cons_append, List.nil_append, List.cons_prefix_cons] at hpre
      obtain ⟨h1, _⟩ := hpre
      have hc := hdk c (by simp)
      rw [h1] at hc
      exact absurd hc (by decide)
    | cons d dj' =>
      rw [List.cons_append, List.cons_append, List.cons_prefix_cons] at hpre
      obtain ⟨h1, h2⟩ := hpre
      subst h1
      exact ih dj' (fun x hx => hdk x (by simp [hx])) (fun x hx => hdj x (by simp [hx]))
        (fun e => hne (by rw [e])) u v h2

theorem imagePlaceholder_not_prefix {k j : Nat} (hne : k ≠ j) (t : List Char) :
    ¬ imagePlaceholder k <+: imagePlaceholder j ++ t := by
  intro h
  unfold imagePlaceholder at h
  rw [List.append_assoc, List.append_assoc, List.append_assoc] at h
  have h2 := (List.prefix_append_right_inj _).mp h
  have hnd : natDigits k ≠ natDigits j := fun e => hne (natDigits_inj k j e)
  exact digits_space_not_prefix (natDigits k) (natDigits j) (natDigits_isDigit k)
    (natDigits_isDigit j) hnd ("-->".toList) ("-->".toList ++ t) h2

theorem isDigit_ne_lt {c : Char} (h : c.isDigit = true) : c ≠ '<' := by
  rintro rfl
  exact absurd h (by decide)

theorem imagePlaceholder_head (k : Nat) :
    imagePlaceholder k =
      '<' :: ("!-- IMAGE_PLACEHOLDER_".toList ++ natDigits k ++ " -->".toList) := rfl

theorem imagePlaceholder_ne_nil (k : Nat) : imagePlaceholder k ≠ [] := by
  rw [imagePlaceholder_head]
  simp

theorem imagePlaceholder_tail_ne_lt (k : Nat) :
    ∀ c ∈ "!-- IMAGE_PLACEHOLDER_".toList ++ natDigits k ++ " -->".toList, c ≠ '<' := by
  intro c hc
  rcases List.mem_append.mp hc with h1 | h2
  · rcases List.mem_append.mp h1 with ha | hb
    · have hfix : ∀ x ∈ "!-- IMAGE_PLACEHOLDER_".toList, x ≠ '<' := by decide
      exact hfix c ha
    · exact isDigit_ne_lt (natDigits_isDigit k c hb)
  · have hfix : ∀ x ∈ " -->".toList, x ≠ '<' := by decide
    exact hfix c h2

/-! ## One pass of the substitution loop over a rendered blob -/

theorem replaceAll_render (k : Nat) (u : List Char) :
    ∀ ps : List Piece, (∀ s, Piece.seg s ∈ ps → '<' ∉ s) →
      replaceAll (renderPieces ps) (imagePlaceholder k) u =
        renderPieces (ps.map (replaceTokPiece k u)) := by
  intro ps
  induction ps with
  | nil => intro _; exact replaceAll_nil _ _
  | cons p rest ih =>
    intro h
    have hrest : ∀ s, Piece.seg s ∈ rest → '<' ∉ s :=
      fun s hs => h s (List.mem_cons_of_mem _ hs)
    cases p with
    | seg s =>
      have hclean : ∀ a₂, a₂ ≠ [] → a₂ <:+ s →
          ¬ imagePlaceholder k <+: (a₂ ++ renderPieces rest) := by
        intro a₂ hne hsuf hpre
        obtain ⟨c2, t2, rfl⟩ := List.exists_cons_of_ne_nil hne
        have hmem : c2 ∈ s := hsuf.subset (by simp)
        have hlt : c2 ≠ '<' := fun e => (h s (by simp)) (e ▸ hmem)
        rw [imagePlaceholder_head, List.cons_append, List.cons_prefix_cons] at hpre
        exact hlt hpre.1.symm
      simp only [renderPieces, List.map_cons, replaceTokPiece]
      rw [replaceAll_append_of_clean _ _ s (renderPieces rest) hclean, ih hrest]
    | img j =>
      by_cases hjk : j = k
      · subst hjk
        simp only [renderPieces, List.map_cons, replaceTokPiece, if_pos rfl]
        rw [replaceAll_pattern_head _ _ (imagePlaceholder_ne_nil j), ih hrest]
      · have hclean : ∀ a₂, a₂ ≠ [] → a₂ <:+ imagePlaceholder j →
            ¬ imagePlaceholder k <+: (a₂ ++ renderPieces rest) := by
          intro a₂ hne hsuf hpre
          by_cases hfull : a₂ = imagePlaceholder j
          · subst hfull
            exact imagePlaceholder_not_prefix (Ne.symm hjk) (renderPieces rest) hpre
          · rw [imagePlaceholder_head] at hsuf
            rcases List.suffix_cons_iff.mp hsuf with he | hsuf2
            · exact hfull (by rw [he, imagePlaceholder_head])
            · obtain ⟨c2, t2, rfl⟩ := List.exists_cons_of_ne_nil hne
              have hmem := hsuf2.subset (show c2 ∈ c2 :: t2 by simp)
              have hlt : c2 ≠ '<' := imagePlaceholder_tail_ne_lt j c2 hmem
              rw [imagePlaceholder_head, List.cons_append, List.cons_prefix_cons] at hpre
              exact hlt hpre.1.symm
        simp only [renderPieces, List.map_cons, replaceTokPiece, if_neg hjk]
        rw [replaceAll_append_of_clean _ _ (imagePlaceholder j) (renderPieces rest) hclean,
          ih hrest]

/-! ## The whole substitution loop over a rendered blob -/

theorem substPieceFrom_nil (i : Nat) (p : Piece) : substPieceFrom i [] p = p := by
  cases p with
  | seg s => rfl
  | img k => simp [substPieceFrom, truthy]

theorem substPiece_step_true (i : Nat) (u : Option (List Char)) (hu : truthy u = true)
    (urls : List (Option (List Char))) (p : Piece) :
    substPieceFrom (i + 1) urls (replaceTokPiece i (u.getD []) p) =
      substPieceFrom i (u :: urls) p := by
  cases p with
  | seg s => rfl
  | img k =>
    simp only [replaceTokPiece]
    by_cases hk : k = i
    · subst hk
      simp only [if_pos rfl]
      simp [substPieceFrom, hu]
    · rw [if_neg hk]
      simp only [substPieceFrom]
      by_cases hik : i + 1 ≤ k
      · have h1 : i ≤ k := by omega
        have h2 : k - i = (k - (i + 1)) + 1 := by omega
        rw [h2]
        simp [hik, h1, List.getD_cons_succ]
      · have h1 : ¬ i ≤ k := by omega
        simp [hik, h1]

theorem substPiece_step_false (i : Nat) (u : Option (List Char)) (hu : truthy u = false)
    (urls : List (Option (List Char))) (p : Piece) :
    substPieceFrom (i + 1) urls p = substPieceFrom i (u :: urls) p := by
  cases p with
  | seg s => rfl
  | img k =>
    simp only [substPieceFrom]
    by_cases hik : i + 1 ≤ k
    · have h1 : i ≤ k := by omega
      have h2 : k - i = (k - (i + 1)) + 1 := by omega
      rw [h2]
      simp [hik, h1, List.getD_cons_succ]
    · by_cases hk : k = i
      · subst hk
        simp [hik, hu]
      · have h1 : ¬ i ≤ k := by omega
        simp [hik, h1]

theorem substFrom_render :
    ∀ (urls : List (Option (List Char))) (i : Nat) (ps : List Piece),
      (∀ s, Piece.seg s ∈ ps → '<' ∉ s) →
      (∀ u ∈ urls, '<' ∉ u.getD []) →
      substFrom i urls (renderPieces ps) = renderPieces (ps.map (substPieceFrom i urls)) := by
  intro urls
  induction urls with
  | nil =>
    intro i ps _ _
    simp only [substFrom]
    rw [List.map_congr_left (fun p _ => substPieceFrom_nil i p), List.map_id']
  | cons u rest ih =>
    intro i ps hseg hurl
    have hurlrest : ∀ u' ∈ rest, '<' ∉ u'.getD [] :=
      fun u' hu' => hurl u' (List.mem_cons_of_mem _ hu')
    simp only [substFrom]
    by_cases hu : truthy u = true
    · rw [if_pos hu]
      rw [replaceAll_render i (u.getD []) ps hseg]
      have hseg2 : ∀ s, Piece.seg s ∈ ps.map (replaceTokPiece i (u.getD [])) → '<' ∉ s := by
        intro s hs
        rcases List.mem_map.mp hs with ⟨p, hp, hpe⟩
        cases p with
        | seg s' =>
          simp only [replaceTokPiece] at hpe
          injection hpe with he
          exact he ▸ hseg s' hp
        | img j =>
          simp only [replaceTokPiece] at hpe
          by_cases hj : j = i
          · rw [if_pos hj] at hpe
            injection hpe with he
            exact he ▸ hurl u (by simp)
          · rw [if_neg hj] at hpe
            exact Piece.noConfusion hpe
      rw [ih (i + 1) (ps.map (replaceTokPiece i (u.getD []))) hseg2 hurlrest]
      rw [List.map_map]
      exact congrArg renderPieces
        (List.map_congr_left (fun p _ => substPiece_step_true i u hu rest p))
    · rw [Bool.not_eq_true] at hu
      rw [hu]
      simp only [Bool.false_eq_true, if_false]
      rw [ih (i + 1) ps hseg hurlrest]
      exact congrArg renderPieces
        (List.map_congr_left (fun p _ => substPiece_step_false i u hu rest p))

/-! ## Occurrences cannot cross a separator character -/

theorem prefix_split : ∀ (pat a b : List Char) (c : Char), c ∉ pat →
    pat <+: a ++ c :: b → pat <+: a := by
  intro pat
  induction pat with
  | nil => intro a b c _ _; exact List.nil_prefix
  | cons p ps ih =>
    intro a b c hc hpre
    cases a with
    | nil =>
      simp only [List.nil_append] at hpre
      rw [List.cons_prefix_cons] at hpre
      have : c ∈ p :: ps := by rw [hpre.1]; exact List.mem_cons_self c ps
      exact absurd this hc
    | cons a0 a' =>
      rw [List.cons_append, List.cons_prefix_cons] at hpre
      exact List.cons_prefix_cons.mpr
        ⟨hpre.1, ih a' b c (fun h => hc (List.mem_cons_of_mem _ h)) hpre.2⟩

theorem infix_split {pat : List Char} {c : Char} (hc : c ∉ pat) :
    ∀ a b, pat <:+: a ++ c :: b → pat <:+: a ∨ pat <:+: b := by
  intro a
  induction a with
  | nil =>
    intro b h
    rcases h with ⟨s, t, he⟩
    cases s with
    | nil =>
      cases pat with
      | nil => exact Or.inl List.nil_infix
      | cons p ps =>
        simp only [List.nil_append, List.cons_append] at he
        injection he with h1 _
        have : c ∈ p :: ps := by rw [h1]; exact List.mem_cons_self c ps
        exact absurd this hc
    | cons s0 s' =>
      simp only [List.nil_append, List.cons_append] at he
      injection he with _ h2
      exact Or.inr ⟨s', t, h2⟩
  | cons a0 a' ih =>
    intro b h
    rcases h with ⟨s, t, he⟩
    cases s with
    | nil =>
      have hpre : pat <+: (a0 :: a') ++ c :: b := ⟨t, by simpa using he⟩
      exact Or.inl (prefix_split pat (a0 :: a') b c hc hpre).isInfix
    | cons s0 s' =>
      simp only [List.cons_append] at he
      injection he with _ h2
      rcases ih b ⟨s', t, h2⟩ with hl | hr
      · exact Or.inl (List.infix_cons hl)
      · exact Or.inr hr

/-! ## No placeholder marker appears in all-failure blobs -/

theorem marker_ne_nil : placeholderMarker ≠ [] := by decide

theorem marker_no_newline : '\n' ∉ placeholderMarker := by decide

theorem marker_not_infix_nil : ¬ placeholderMarker <:+: ([] : List Char) := by decide

theorem marker_not_infix_of_no_lt {s : List Char} (h : '<' ∉ s) :
    ¬ placeholderMarker <:+: s :=
  fun hi => h (hi.subset (show '<' ∈ placeholderMarker by decide))

theorem marker_prefix_placeholder (i : Nat) : placeholderMarker <+: imagePlaceholder i := by
  unfold imagePlaceholder placeholderMarker
  rw [List.append_assoc]
  exact List.prefix_append _ _

theorem noMarker_append_newline {a b : List Char} (ha : ¬ placeholderMarker <:+: a)
    (hb : ¬ placeholderMarker <:+: b) (hend : a = [] ∨ ∃ a', a = a' ++ ['\n']) :
    ¬ placeholderMarker <:+: a ++ b := by
  intro h
  rcases hend with rfl | ⟨a', rfl⟩
  · exact hb (by simpa using h)
  · rw [List.append_assoc] at h
    rcases infix_split marker_no_newline a' b h with h1 | h2
    · exact ha (h1.trans (List.prefix_append a' ['\n']).isInfix)
    · exact hb h2

theorem pageMarker_no_lt (n : Nat) : '<' ∉ pageMarker n := by
  intro h
  unfold pageMarker at h
  rcases List.mem_append.mp h with h1 | h2
  · rcases List.mem_append.mp h1 with ha | hb
    · exact absurd ha (by decide)
    · exact isDigit_ne_lt (natDigits_isDigit n '<' hb) rfl
  · exact absurd h2 (by decide)

theorem failurePiece_no_lt (n : Nat) : '<' ∉ failurePiece n := by
  intro h
  unfold failurePiece at h
  rcases List.mem_append.mp h with h1 | h2
  · rcases List.mem_append.mp h1 with ha | hb
    · exact absurd ha (by decide)
    · exact isDigit_ne_lt (natDigits_isDigit n '<' hb) rfl
  · exact absurd h2 (by decide)

theorem pageMarker_ends_newline (n : Nat) : ∃ a', pageMarker n = a' ++ ['\n'] := by
  refine ⟨"\n\n--- Page ".toList ++ natDigits n ++ " ---".toList, ?_⟩
  unfold pageMarker
  simp

theorem failurePiece_ends_newline (n : Nat) : ∃ a', failurePiece n = a' ++ ['\n'] := by
  refine ⟨"\n[画像: Page ".toList ++ natDigits n ++ " - アップロード失敗]\n".toList, ?_⟩
  unfold failurePiece
  simp

theorem good_append {a b : List Char} (ha : ¬ placeholderMarker <:+: a)
    (hb : ¬ placeholderMarker <:+: b) (hae : ∃ a', a = a' ++ ['\n'])
    (hbe : b = [] ∨ ∃ b', b = b' ++ ['\n']) :
    ¬ placeholderMarker <:+: a ++ b ∧ (a ++ b = [] ∨ ∃ t, a ++ b = t ++ ['\n']) := by
  constructor
  · exact noMarker_append_newline ha hb (Or.inr hae)
  · rcases hbe with rfl | ⟨b', rfl⟩
    · obtain ⟨a', rfl⟩ := hae
      exact Or.inr ⟨a', by simp⟩
    · exact Or.inr ⟨a ++ b', by simp⟩

theorem noMarker_line {content : List Char} (h : ¬ placeholderMarker <:+: content) :
    ¬ placeholderMarker <:+: content ++ ['\n'] := by
  intro hi
  rcases infix_split marker_no_newline content [] hi with h1 | h2
  · exact h h1
  · exact marker_not_infix_nil h2

theorem getD_none_of_all_none {urls : List (Option (List Char))}
    (hnone : ∀ u ∈ urls, u = none) (c : Nat) : urls.getD c none = none := by
  cases hx : urls[c]? with
  | none => simp [List.getD_eq_getElem?_getD, hx]
  | some u =>
    have hm := List.getElem?_mem hx
    have := hnone u hm
    simp [List.getD_eq_getElem?_getD, hx, this]

theorem noMarker_buildElems (pnum : Nat) (urls : List (Option (List Char)))
    (hnone : ∀ u ∈ urls, u = none) :
    ∀ (es : List Element) (c : Nat), (∀ e ∈ es, elementClean e) →
      ¬ placeholderMarker <:+: (buildElems pnum urls es c).1 ∧
      ((buildElems pnum urls es c).1 = [] ∨
        ∃ a', (buildElems pnum urls es c).1 = a' ++ ['\n']) := by
  intro es
  induction es with
  | nil => intro c _; exact ⟨marker_not_infix_nil, Or.inl rfl⟩
  | cons e rest ih =>
    intro c hclean
    have hrest := ih c (fun x hx => hclean x (List.mem_cons_of_mem _ hx))
    cases e with
    | text content bbox y =>
      have hcnt : ¬ placeholderMarker <:+: content := hclean (.text content bbox y) (by simp)
      simp only [buildElems]
      show ¬ placeholderMarker <:+: (content ++ ['\n']) ++ (buildElems pnum urls rest c).1 ∧ _
      exact good_append (noMarker_line hcnt) hrest.1 ⟨content, rfl⟩ hrest.2
    | image im bb y pg idx =>
      have hget := getD_none_of_all_none hnone c
      simp only [buildElems, hget]
      have hcond : (decide (c < urls.length) && truthy none) = false := by
        simp [truthy]
      rw [hcond]
      simp only [Bool.false_eq_true, if_false]
      exact good_append (marker_not_infix_of_no_lt (failurePiece_no_lt pnum)) hrest.1
        (failurePiece_ends_newline pnum) hrest.2

theorem pageMarker_ne_nil (n : Nat) : pageMarker n ≠ [] := by
  show ('\n' :: ("\n--- Page ".toList ++ natDigits n ++ " ---\n".toList)) ≠ []
  simp

theorem noMarker_buildPages (urls : List (Option (List Char)))
    (hnone : ∀ u ∈ urls, u = none) :
    ∀ (pages : List PageData) (c : Nat),
      (∀ pd ∈ pages, ∀ e ∈ pd.elements, elementClean e) →
      ¬ placeholderMarker <:+: (buildPages urls pages c).1 ∧
      ((buildPages urls pages c).1 = [] ∨
        ∃ a', (buildPages urls pages c).1 = a' ++ ['\n']) := by
  intro pages
  induction pages with
  | nil => intro c _; exact ⟨marker_not_infix_nil, Or.inl rfl⟩
  | cons p rest ih =>
    intro c hclean
    have helems := noMarker_buildElems p.page_num urls hnone p.elements c
      (hclean p (by simp))
    have hrest := ih (buildElems p.page_num urls p.elements c).2
      (fun pd hpd => hclean pd (List.mem_cons_of_mem _ hpd))
    simp only [buildPages]
    have hfirst := good_append (marker_not_infix_of_no_lt (pageMarker_no_lt p.page_num))
      helems.1 (pageMarker_ends_newline p.page_num) helems.2
    exact good_append hfirst.1 hrest.1
      (by
        rcases hfirst.2 with he | h
        · exact absurd (List.append_eq_nil.mp he).1 (pageMarker_ne_nil p.page_num)
        · exact h)
      hrest.2

/-! ## Counter and emission-trace lemmas for the serializer -/

theorem buildElemsT_agrees (pnum : Nat) (urls : List (Option (List Char))) :
    ∀ (es : List Element) (c : Nat),
      (buildElemsT pnum urls es c).1 = (buildElems pnum urls es c).1 ∧
      (buildElemsT pnum urls es c).2.1 = (buildElems pnum urls es c).2 := by
  intro es
  induction es with
  | nil => intro c; exact ⟨rfl, rfl⟩
  | cons e rest ih =>
    intro c
    cases e with
    | text content bbox y =>
      simp only [buildElemsT, buildElems]
      exact ⟨by rw [(ih c).1], (ih c).2⟩
    | image im bb y pg idx =>
      simp only [buildElemsT, buildElems]
      by_cases hcond : (decide (c < urls.length) && truthy (urls.getD c none)) = true
      · rw [hcond]
        simp only [if_true]
        exact ⟨by rw [(ih (c + 1)).1], (ih (c + 1)).2⟩
      · rw [Bool.eq_false_iff.mpr hcond]
        simp only [Bool.false_eq_true, if_false]
        exact ⟨by rw [(ih c).1], (ih c).2⟩

theorem buildPagesT_agrees (urls : List (Option (List Char))) :
    ∀ (pages : List PageData) (c : Nat),
      (buildPagesT urls pages c).1 = (buildPages urls pages c).1 ∧
      (buildPagesT urls pages c).2.1 = (buildPages urls pages c).2 := by
  intro pages
  induction pages with
  | nil => intro c; exact ⟨rfl, rfl⟩
  | cons p rest ih =>
    intro c
    simp only [buildPagesT, buildPages]
    have he := buildElemsT_agrees p.page_num urls p.elements c
    rw [he.1, he.2]
    exact ⟨by rw [(ih _).1], (ih _).2⟩

theorem buildElemsT_trace (pnum : Nat) (urls : List (Option (List Char))) :
    ∀ (es : List Element) (c : Nat), ∃ k,
      (buildElemsT pnum urls es c).2.1 = c + k ∧
      (buildElemsT pnum urls es c).2.2 = List.range' c k := by
  intro es
  induction es with
  | nil => intro c; exact ⟨0, rfl, rfl⟩
  | cons e rest ih =>
    intro c
    cases e with
    | text content bbox y =>
      obtain ⟨k, h1, h2⟩ := ih c
      exact ⟨k, by simpa only [buildElemsT] using h1, by simpa only [buildElemsT] using h2⟩
    | image im bb y pg idx =>
      simp only [buildElemsT]
      by_cases hcond : (decide (c < urls.length) && truthy (urls.getD c none)) = true
      · rw [hcond]
        simp only [if_true]
        obtain ⟨k, h1, h2⟩ := ih (c + 1)
        refine ⟨k + 1, by rw [h1]; omega, ?_⟩
        rw [h2, List.range'_succ c k 1]
      · rw [Bool.eq_false_iff.mpr hcond]
        simp only [Bool.false_eq_true, if_false]
        exact ih c

theorem buildPagesT_trace (urls : List (Option (List Char))) :
    ∀ (pages : List PageData) (c : Nat), ∃ k,
      (buildPagesT urls pages c).2.1 = c + k ∧
      (buildPagesT urls pages c).2.2 = List.range' c k := by
  intro pages
  induction pages with
  | nil => intro c; exact ⟨0, rfl, rfl⟩
  | cons p rest ih =>
    intro c
    simp only [buildPagesT]
    obtain ⟨k1, h1, h2⟩ := buildElemsT_trace p.page_num urls p.elements c
    obtain ⟨k2, h3, h4⟩ := ih (buildElemsT p.page_num urls p.elements c).2.1
    refine ⟨k1 + k2, by rw [h3, h1]; omega, ?_⟩
    rw [h4, h2, h1]
    have := List.range'_append_1 c k1 k2
    rw [Nat.add_comm k2 k1] at this
    exact this

/-! ## Stable sort lemmas for the page extractor -/

theorem filter_orderedInsert (q : ℚ) (a : Element) :
    ∀ l : List Element,
      (List.orderedInsert elemLe a l).filter (fun e => decide (e.y_pos = q)) =
        if a.y_pos = q then a :: l.filter (fun e => decide (e.y_pos = q))
        else l.filter (fun e => decide (e.y_pos = q)) := by
  intro l
  induction l with
  | nil => by_cases h : a.y_pos = q <;> simp [List.orderedInsert, h]
  | cons b t ih =>
    simp only [List.orderedInsert]
    by_cases hle : elemLe a b
    · rw [if_pos hle]
      by_cases ha : a.y_pos = q <;> simp [List.filter_cons, ha]
    · rw [if_neg hle]
      have hblt : b.y_pos < a.y_pos := not_le.mp hle
      by_cases ha : a.y_pos = q
      · have hb : ¬ b.y_pos = q := by
          intro e
          rw [e, ← ha] at hblt
          exact lt_irrefl _ hblt
        simp [List.filter_cons, ha, hb, ih]
      · by_cases hb : b.y_pos = q <;> simp [List.filter_cons, ha, hb, ih]

theorem filter_insertionSort (q : ℚ) :
    ∀ l : List Element,
      (List.insertionSort elemLe l).filter (fun e => decide (e.y_pos = q)) =
        l.filter (fun e => decide (e.y_pos = q)) := by
  intro l
  induction l with
  | nil => rfl
  | cons a t ih =>
    simp only [List.insertionSort]
    rw [filter_orderedInsert q a]
    by_cases ha : a.y_pos = q <;> simp [List.filter_cons, ha, ih]

theorem extract_sorted : ∀ (doc : List PageInput) (n i : Nat),
    List.Sorted elemLe ((extractFrom n doc).getD i ⟨0, []⟩).elements := by
  intro doc
  induction doc with
  | nil => intro n i; exact List.sorted_nil
  | cons p rest ih =>
    intro n i
    cases i with
    | zero =>
      simp only [extractFrom, List.getD_cons_zero]
      exact List.sorted_insertionSort elemLe _
    | succ j =>
      simp only [extractFrom, List.getD_cons_succ]
      exact ih (n + 1) j

/-! ## Claim theorems -/

/-- C2: placeholder substitution in `summarize_with_openai` is a faithful
round-trip.  For a returned text that interleaves literal segments with
placeholder tokens, every occurrence of the token for an index with a
truthy mapped URL is replaced by that literal URL, all other text is left
byte-identical, and a surviving placeholder (one with no mapped URL) is
passed through verbatim without error — under the well-formedness
hypotheses that segments and URLs do not contain `<`, the character that
starts a token. -/
theorem c2_substitution_roundtrip (ps : List Piece) (urls : List (Option (List Char)))
    (hseg : ∀ p ∈ ps, pieceClean p) (hurl : ∀ u ∈ urls, '<' ∉ u.getD []) :
    substitutePlaceholders urls (renderPieces ps) =
      renderPieces (ps.map (substPieceFrom 0 urls)) :=
  substFrom_render urls 0 ps (fun s hs => hseg (.seg s) hs) hurl

/-- Witness for C2 at a concrete blob: token 0 is replaced by its URL,
token 1 (upload failed) and token 5 (no such image) survive verbatim. -/
theorem c2_substitution_roundtrip_witness :
    ((∀ p ∈ samplePieces, pieceClean p) ∧ (∀ u ∈ sampleUrlsOkThenFail, '<' ∉ u.getD [])) ∧
    substitutePlaceholders sampleUrlsOkThenFail (renderPieces samplePieces) =
      renderPieces (samplePieces.map (substPieceFrom 0 sampleUrlsOkThenFail)) :=
  ⟨⟨by decide, by decide⟩,
    c2_substitution_roundtrip samplePieces sampleUrlsOkThenFail (by decide) (by decide)⟩

/-- C4: every page produced by the extractor has its merged element list
sorted by top coordinate (`y_pos`) ascending; the sort is stable — for
every key value the elements keep their merge order, text lines (placed
first) before images, stated as the filter equation — and the sorted list
is a permutation of the merged text-then-image input, so the serializer
(which walks the list in order) emits elements in non-decreasing
top-coordinate order. -/
theorem c4_sorted_stable_merge (doc : List PageInput) (i : Nat) (pnum : Nat)
    (lines : List TextLine) (imgs : List RawImage) (q : ℚ) :
    List.Sorted elemLe ((extract_pdf_content_with_layout doc).getD i ⟨0, []⟩).elements ∧
    (pageElements pnum lines imgs).filter (fun e => decide (e.y_pos = q)) =
      (lines.map textElement).filter (fun e => decide (e.y_pos = q)) ++
        (imageElemsFrom pnum 0 imgs).filter (fun e => decide (e.y_pos = q)) ∧
    List.Perm (pageElements pnum lines imgs)
      (lines.map textElement ++ imageElemsFrom pnum 0 imgs) := by
  refine ⟨extract_sorted doc 0 i, ?_, List.perm_insertionSort elemLe _⟩
  unfold pageElements
  rw [filter_insertionSort q, List.filter_append]

/-- C10: in every blob built by `build_structured_content` the emitted
placeholder indices form a consecutive prefix of the naturals in order of
appearance — the ghost trace of counter values used by emitted tokens is
`range` of its own length, i.e. the n-th emitted token (counting from 1)
is `IMAGE_PLACEHOLDER_(n-1)`; and the instrumented build produces exactly
the real serializer's text. -/
theorem c10_placeholder_indices_consecutive (pages : List PageData)
    (urls : List (Option (List Char))) :
    (buildPagesT urls pages 0).2.2 = List.range (buildPagesT urls pages 0).2.2.length ∧
    (buildPagesT urls pages 0).1 = build_structured_content pages urls := by
  obtain ⟨k, _, h2⟩ := buildPagesT_trace urls pages 0
  constructor
  · rw [h2]
    simp [List.range_eq_range']
  · exact (buildPagesT_agrees urls pages 0).1

/-- C1: refuted on the code.  With one page holding two image elements and
upload results `[None, url]`, `build_structured_content` advances the
shared image counter zero times although two image elements were
encountered: the counter is only incremented on the success branch
(src/pdf2md.py line 114 sits inside the `if` of line 112), so after the
first failure it sticks, and even the second image — whose upload
succeeded — is rendered as a failure marker. -/
theorem c1_counter_not_advanced_per_image :
    (buildPages sampleUrlsFailThenOk samplePagesTwoImages 0).2 = 0 ∧
    (collectImages samplePagesTwoImages).length = 2 ∧
    truthy (sampleUrlsFailThenOk.getD 1 none) = true := by
  refine ⟨?_, ?_, ?_⟩ <;> rfl

/-- C8 (amended): the extractor imposes no per-page bound on images —
every entry of the page's image list is attempted in order, and each image
whose crop succeeds is added to the element list, however many there are. -/
theorem c8_no_per_page_image_bound (pnum : Nat) :
    ∀ (idx : Nat) (imgs : List RawImage),
      (imageElemsFrom pnum idx imgs).length = imgs.countP (fun r => r.crop.isSome) := by
  intro idx imgs
  induction imgs generalizing idx with
  | nil => rfl
  | cons img rest ih =>
    cases hc : img.crop with
    | some pix => simp [imageElemsFrom, hc, List.countP_cons, ih]
    | none => simp [imageElemsFrom, hc, List.countP_cons, ih]

/-- C8 counterexample: a page with 15 images has all 15 attempted and
added to the element list — the claimed cap of at most 14 images per page
does not exist in the code. -/
theorem c8_fifteen_images_added :
    (imageElemsFrom 1 0 (List.replicate 15 sampleRawImage)).length = 15 ∧
    ¬ (15 : Nat) ≤ 14 := ⟨rfl, by decide⟩

/-- C3: in every run in which zero images uploaded successfully (every
upload result absent), the prompt contains the explicit instruction
forbidding image references, and the serialized blob contains zero
placeholder tokens — assuming the PDF's own text lines do not contain the
synthetic marker string. -/
theorem c3_zero_success_no_placeholder (pages : List PageData)
    (urls : List (Option (List Char))) (hnone : ∀ u ∈ urls, u = none)
    (hclean : ∀ pd ∈ pages, ∀ e ∈ pd.elements, elementClean e) :
    imageInstructionZero <:+: buildPrompt pages urls ∧
    ∀ i, ¬ imagePlaceholder i <:+: build_structured_content pages urls := by
  have hfilter : urls.filter (fun u => truthy u) = [] :=
    List.filter_eq_nil_iff.mpr (fun u hu => by rw [hnone u hu]; simp [truthy])
  have hcount : valid_image_count urls = 0 := by
    unfold valid_image_count
    rw [hfilter]
    rfl
  constructor
  · unfold buildPrompt imageInstruction
    rw [hcount]
    simp only [if_pos rfl]
    exact ⟨promptHeader,
      promptMiddle ++ build_structured_content pages urls ++ "\n".toList,
      by simp [List.append_assoc]⟩
  · intro i hi
    have hmark : placeholderMarker <:+: build_structured_content pages urls :=
      ((marker_prefix_placeholder i).isInfix).trans hi
    exact (noMarker_buildPages urls hnone pages 0 hclean).1 hmark

/-- Witness for C3: a one-page document with one text line and a single
failed upload — the forbidding instruction is in the prompt and the token
for index 0 is absent from the blob. -/
theorem c3_zero_success_no_placeholder_witness :
    ((∀ u ∈ [(none : Option (List Char))], u = none) ∧
      (∀ pd ∈ samplePagesText, ∀ e ∈ pd.elements, elementClean e)) ∧
    imageInstructionZero <:+: buildPrompt samplePagesText [none] ∧
    ¬ imagePlaceholder 0 <:+: build_structured_content samplePagesText [none] :=
  ⟨⟨by decide, by decide⟩,
    (c3_zero_success_no_placeholder samplePagesText [none] (by decide) (by decide)).1,
    (c3_zero_success_no_placeholder samplePagesText [none] (by decide) (by decide)).2 0⟩

/-- C9: if either required environment secret is absent (falsy), a
well-formed invocation on an existing input exits with status 1 carrying
the configuration error message, before any file is touched: the PDF is
never opened and no output file is written. -/
theorem c9_missing_secret_is_preflight_fatal (inp : RunInput) (i o : List Char)
    (hargv : inp.argv = [i, o]) (hex : inp.inputExists = true)
    (hsec : truthy inp.env.gyazo_token = false ∨ truthy inp.env.openai_api_key = false) :
    (runMain inp).exitCode = 1 ∧ (runMain inp).pdfOpened = false ∧
    (runMain inp).written = none ∧
    ((runMain inp).message = some (errPrefix ++ gyazoMissingMsg) ∨
      (runMain inp).message = some (errPrefix ++ openaiMissingMsg)) := by
  have hinit : ∃ msg, initPDF2MD inp.env = .error msg ∧
      (msg = gyazoMissingMsg ∨ msg = openaiMissingMsg) := by
    unfold initPDF2MD
    cases hg : truthy inp.env.gyazo_token with
    | false => exact ⟨gyazoMissingMsg, by simp, Or.inl rfl⟩
    | true =>
      rcases hsec with h | h
      · rw [hg] at h; exact absurd h (by simp)
      · refine ⟨openaiMissingMsg, by simp [h], Or.inr rfl⟩
  obtain ⟨msg, hmsg, hor⟩ := hinit
  simp only [runMain, hargv, parseArgs, hex, hmsg, Bool.not_true, Bool.false_eq_true, if_false]
  refine ⟨trivial, trivial, trivial, ?_⟩
  rcases hor with rfl | rfl
  · exact Or.inl rfl
  · exact Or.inr rfl

/-- Witness for C9: a run missing GYAZO_TOKEN exits 1 without opening the
PDF or writing anything. -/
theorem c9_missing_secret_is_preflight_fatal_witness :
    (sampleRunNoGyazo.argv = [inputArg, outputArg] ∧ sampleRunNoGyazo.inputExists = true ∧
      truthy sampleRunNoGyazo.env.gyazo_token = false) ∧
    (runMain sampleRunNoGyazo).exitCode = 1 ∧ (runMain sampleRunNoGyazo).pdfOpened = false ∧
    (runMain sampleRunNoGyazo).written = none :=
  ⟨⟨rfl, rfl, rfl⟩,
    (c9_missing_secret_is_preflight_fatal sampleRunNoGyazo inputArg outputArg rfl rfl
      (Or.inl rfl)).1,
    (c9_missing_secret_is_preflight_fatal sampleRunNoGyazo inputArg outputArg rfl rfl
      (Or.inl rfl)).2.1,
    (c9_missing_secret_is_preflight_fatal sampleRunNoGyazo inputArg outputArg rfl rfl
      (Or.inl rfl)).2.2.1⟩

/-- C7 (amended): the output argument is required, not optional — any
invocation whose positional-argument count differs from two is rejected by
argparse with exit status 2, before any work: nothing is converted, no
output path is derived, no file is written. -/
theorem c7_output_argument_required (inp : RunInput) (h : inp.argv.length ≠ 2) :
    (runMain inp).exitCode = 2 ∧ (runMain inp).written = none ∧
    (runMain inp).pdfOpened = false := by
  have hp : parseArgs inp.argv = .error 2 := by
    rcases hl : inp.argv with _ | ⟨a, tl⟩
    · rfl
    · rcases tl with _ | ⟨b, tl2⟩
      · rfl
      · rcases tl2 with _ | ⟨c, tl3⟩
        · exact absurd (by rw [hl]; rfl) h
        · rfl
  simp only [runMain, hp]
  exact ⟨trivial, trivial, trivial⟩

/-- Witness for C7 (amended): one argument only. -/
theorem c7_output_argument_required_witness :
    sampleRunOneArg.argv.length ≠ 2 ∧ (runMain sampleRunOneArg).exitCode = 2 ∧
    (runMain sampleRunOneArg).written = none :=
  ⟨by decide, (c7_output_argument_required sampleRunOneArg (by decide)).1,
    (c7_output_argument_required sampleRunOneArg (by decide)).2.1⟩

/-- C7 counterexample: supplying only the input path does not derive
`doc.md` and write there — argparse rejects the invocation with exit
status 2 and nothing is written. -/
theorem c7_single_argument_rejected :
    (runMain sampleRunOneArg).exitCode = 2 ∧ (runMain sampleRunOneArg).written = none ∧
    parseArgs [inputArg] = Except.error 2 :=
  ⟨rfl, rfl, rfl⟩

/-- C6 (amended): when the completion call errors, the exception
propagates out of `summarize_with_openai`; `main` catches it, prints the
error text as a diagnostic, and exits with status 1 — the output file is
never written (the API error text is not written into it as a degraded
result). -/
theorem c6_api_error_exits_without_writing (inp : RunInput) (i o e : List Char)
    (hargv : inp.argv = [i, o]) (hex : inp.inputExists = true)
    (hg : truthy inp.env.gyazo_token = true) (ho : truthy inp.env.openai_api_key = true)
    (hor : inp.oracle (buildPrompt (runPages inp.pdf) (runUrls inp.pdf inp.uploads)) =
      .error e) :
    (runMain inp).exitCode = 1 ∧ (runMain inp).written = none ∧
    (runMain inp).message = some (errPrefix ++ e) ∧ (runMain inp).pdfOpened = true := by
  have hinit : initPDF2MD inp.env = .ok () := by
    unfold initPDF2MD
    simp [hg, ho]
  have hconv : convert inp.pdf inp.uploads inp.oracle = .error e := by
    unfold convert summarize_with_openai
    rw [hor]
  simp only [runMain, hargv, parseArgs, hex, hinit, hconv, Bool.not_true, Bool.false_eq_true,
    if_false]
  exact ⟨trivial, trivial, trivial, trivial⟩

/-- Witness for C6 (amended): concrete erroring completion call. -/
theorem c6_api_error_exits_without_writing_witness :
    (sampleRunApiError.argv = [inputArg, outputArg] ∧
      sampleRunApiError.oracle (buildPrompt (runPages sampleRunApiError.pdf)
        (runUrls sampleRunApiError.pdf sampleRunApiError.uploads)) =
          Except.error ("boom".toList)) ∧
    (runMain sampleRunApiError).exitCode = 1 ∧ (runMain sampleRunApiError).written = none :=
  ⟨⟨rfl, rfl⟩,
    (c6_api_error_exits_without_writing sampleRunApiError inputArg outputArg
      ("boom".toList) rfl rfl rfl rfl rfl).1,
    (c6_api_error_exits_without_writing sampleRunApiError inputArg outputArg
      ("boom".toList) rfl rfl rfl rfl rfl).2.1⟩

/-- C6 counterexample: with an erroring completion call the run writes no
output file at all — refuting the claim that the API error text is written
into the output file as a degraded result. -/
theorem c6_error_text_not_written_to_file :
    (runMain sampleRunApiError).exitCode = 1 ∧ (runMain sampleRunApiError).written = none ∧
    (runMain sampleRunApiError).message = some (errPrefix ++ "boom".toList) :=
  ⟨rfl, rfl, rfl⟩

theorem uploadAll_all_none {f : Nat → HttpOutcome}
    (hup : ∀ m, f m = HttpOutcome.netError) (n : Nat) :
    ∀ u ∈ uploadAll f n, u = none := by
  intro u hu
  rcases List.mem_map.mp hu with ⟨m, _, rfl⟩
  rw [hup m]
  rfl

theorem failurePiece_in_buildElems (pnum : Nat) (urls : List (Option (List Char)))
    (hnone : ∀ u ∈ urls, u = none) :
    ∀ (es : List Element) (c : Nat), (∃ e ∈ es, e.isImage = true) →
      failurePiece pnum <:+: (buildElems pnum urls es c).1 := by
  intro es
  induction es with
  | nil =>
    intro c h
    obtain ⟨e, he, _⟩ := h
    exact absurd he (List.not_mem_nil e)
  | cons e rest ih =>
    intro c himg
    cases e with
    | text content bbox y =>
      obtain ⟨e', he', him⟩ := himg
      rcases List.mem_cons.mp he' with rfl | hmem
      · exact absurd him (by simp [Element.isImage])
      · simp only [buildElems]
        exact (ih c ⟨e', hmem, him⟩).trans (List.suffix_append _ _).isInfix
    | image im bb y pg idx =>
      have hget := getD_none_of_all_none hnone c
      simp only [buildElems, hget]
      have hcond : (decide (c < urls.length) && truthy none) = false := by simp [truthy]
      rw [hcond]
      simp only [Bool.false_eq_true, if_false]
      exact (List.prefix_append _ _).isInfix

theorem failurePiece_in_buildPages (urls : List (Option (List Char)))
    (hnone : ∀ u ∈ urls, u = none) :
    ∀ (pages : List PageData) (c : Nat),
      (∃ pd ∈ pages, ∃ e ∈ pd.elements, e.isImage = true) →
      ∃ n, failurePiece n <:+: (buildPages urls pages c).1 := by
  intro pages
  induction pages with
  | nil =>
    intro c h
    obtain ⟨pd, hpd, _⟩ := h
    exact absurd hpd (List.not_mem_nil pd)
  | cons p rest ih =>
    intro c himg
    obtain ⟨pd, hpd, he⟩ := himg
    simp only [buildPages]
    rcases List.mem_cons.mp hpd with rfl | hmem
    · refine ⟨pd.page_num, ?_⟩
      have h1 := failurePiece_in_buildElems pd.page_num urls hnone pd.elements c he
      exact (h1.trans (List.suffix_append _ _).isInfix).trans (List.prefix_append _ _).isInfix
    · obtain ⟨n, hn⟩ := ih (buildElems p.page_num urls p.elements c).2 ⟨pd, hmem, he⟩
      exact ⟨n, hn.trans (List.suffix_append _ _).isInfix⟩

/-- C5 (amended): the uploader returns `None` on a network error, on any
4xx/5xx status (the exact range `raise_for_status` raises for — not "any
non-2xx": a 3xx response with a well-formed body yields the URL), and on a
response without a well-formed URL field; it returns the URL whenever the
status is outside 400-599 and the field is present.  Exactly one upload is
attempted per discovered image (no retry), and a run whose uploads all
fail still completes with exit code 0, writing the summarized output,
with a textual failure marker — and no placeholder token — in the
serialized blob. -/
theorem c5_upload_failure_behaviour (s : Nat) (j : Option (List Char)) (u : List Char)
    (inp : RunInput) (i o t : List Char)
    (hargv : inp.argv = [i, o]) (hex : inp.inputExists = true)
    (hg : truthy inp.env.gyazo_token = true) (ho : truthy inp.env.openai_api_key = true)
    (hup : ∀ n, inp.uploads n = HttpOutcome.netError)
    (hor : inp.oracle (buildPrompt (runPages inp.pdf) (runUrls inp.pdf inp.uploads)) = .ok t)
    (hclean : ∀ pd ∈ runPages inp.pdf, ∀ e ∈ pd.elements, elementClean e)
    (himg : ∃ pd ∈ runPages inp.pdf, ∃ e ∈ pd.elements, e.isImage = true) :
    upload_to_gyazo HttpOutcome.netError = none ∧
    (400 ≤ s → s < 600 → upload_to_gyazo (.response s j) = none) ∧
    upload_to_gyazo (.response s none) = none ∧
    (¬ (400 ≤ s ∧ s < 600) → upload_to_gyazo (.response s (some u)) = some u) ∧
    (runUrls inp.pdf inp.uploads).length = (collectImages (runPages inp.pdf)).length ∧
    (runMain inp).exitCode = 0 ∧ (runMain inp).pdfOpened = true ∧
    (runMain inp).written =
      some (o, substitutePlaceholders (runUrls inp.pdf inp.uploads) t) ∧
    (∃ n, failurePiece n <:+:
      build_structured_content (runPages inp.pdf) (runUrls inp.pdf inp.uploads)) ∧
    (∀ k, ¬ imagePlaceholder k <:+:
      build_structured_content (runPages inp.pdf) (runUrls inp.pdf inp.uploads)) := by
  have hnone : ∀ x ∈ runUrls inp.pdf inp.uploads, x = none :=
    uploadAll_all_none hup (collectImages (runPages inp.pdf)).length
  have hinit : initPDF2MD inp.env = .ok () := by
    unfold initPDF2MD
    simp [hg, ho]
  have hconv : convert inp.pdf inp.uploads inp.oracle =
      .ok (substitutePlaceholders (runUrls inp.pdf inp.uploads) t) := by
    unfold convert summarize_with_openai
    rw [hor]
  have hmain : runMain inp =
      ⟨0, true, some (o, substitutePlaceholders (runUrls inp.pdf inp.uploads) t), none⟩ := by
    simp only [runMain, hargv, parseArgs, hex, hinit, hconv, Bool.not_true,
      Bool.false_eq_true, if_false]
  refine ⟨rfl, ?_, ?_, ?_, ?_, ?_, ?_, ?_, ?_, ?_⟩
  · intro h4 h6
    unfold upload_to_gyazo
    simp [h4, h6]
  · simp [upload_to_gyazo]
  · intro hns
    unfold upload_to_gyazo
    by_cases h4 : 400 ≤ s
    · have h6 : ¬ s < 600 := fun h => hns ⟨h4, h⟩
      simp [h4, h6]
    · simp [h4]
  · simp [runUrls, uploadAll]
  · rw [hmain]
  · rw [hmain]
  · rw [hmain]
  · exact failurePiece_in_buildPages _ hnone _ 0 himg
  · intro k hk
    exact (noMarker_buildPages _ hnone _ 0 hclean).1
      ((marker_prefix_placeholder k).isInfix.trans hk)

/-- Witness for C5 (amended): a one-image run whose upload gets a network
error completes with exit code 0 and a failure marker, no placeholder. -/
theorem c5_upload_failure_behaviour_witness :
    ((∀ n, sampleRunFailUpload.uploads n = HttpOutcome.netError) ∧
      (∃ pd ∈ runPages sampleRunFailUpload.pdf, ∃ e ∈ pd.elements, e.isImage = true)) ∧
    (runMain sampleRunFailUpload).exitCode = 0 ∧
    (∃ n, failurePiece n <:+: build_structured_content (runPages sampleRunFailUpload.pdf)
      (runUrls sampleRunFailUpload.pdf sampleRunFailUpload.uploads)) ∧
    ¬ imagePlaceholder 0 <:+: build_structured_content (runPages sampleRunFailUpload.pdf)
      (runUrls sampleRunFailUpload.pdf sampleRunFailUpload.uploads) := by
  have h := c5_upload_failure_behaviour 300 none gyazoUrl sampleRunFailUpload inputArg
    outputArg ("OK".toList) rfl rfl rfl rfl (fun _ => rfl) rfl (by decide) (by decide)
  exact ⟨⟨fun _ => rfl, by decide⟩, h.2.2.2.2.2.1, h.2.2.2.2.2.2.2.2.1,
    h.2.2.2.2.2.2.2.2.2 0⟩

/-- C5 counterexample: a 300-status response with a well-formed URL body
makes `upload_to_gyazo` return the URL although 300 is not a 2xx status —
refuting "returns None on any non-2xx status". -/
theorem c5_non_2xx_still_returns_url :
    upload_to_gyazo (HttpOutcome.response 300 (some gyazoUrl)) = some gyazoUrl ∧
    ¬ (200 ≤ 300 ∧ 300 ≤ 299) :=
  ⟨rfl, by decide⟩

end PdfToMd
